import Mathlib

/-!
Verification of the tiny-cnn / tiny-dnn layer-graph execution engine.

Numeric buffers of the C++ code (`vec_t`, `Tensor<float_t>`) are modelled
over the rationals; flat buffers are lists, and raw-pointer-addressed
buffers are total functions from flat indices to values.  Fallible
operations (C++ `throw nn_error(...)`) are modelled with `Except` or
`Option` results.
-/

/-- Modelled from the spec: an error carrying a descriptive message, the
Lean counterpart of the C++ exception type `nn_error` (the class itself
lives outside the provided sources; every throw site in the sources
constructs it from a message string). -/
structure nn_error where
  msg : String
deriving DecidableEq, Repr

/-- Modelled from the spec: `Shape3D` is a (width, height, depth) triple;
the class `index3d` / `shape3d` itself is outside the provided sources,
but its linearization `get_index` is fixed by the spec and used by every
kernel in the sources. -/
structure shape3d where
  width_ : Nat
  height_ : Nat
  depth_ : Nat
deriving DecidableEq, Repr

/-- Modelled from the spec: `size() = width*height*depth`. -/
def shape3d.size (s : shape3d) : Nat :=
  s.width_ * s.height_ * s.depth_

/-- Modelled from the spec: `get_index(x,y,c) = c*width*height + y*width + x`. -/
def shape3d.get_index (s : shape3d) (x y c : Nat) : Nat :=
  c * (s.width_ * s.height_) + y * s.width_ + x

/-- Modelled from the spec: the connection table is a boolean matrix
`is_connected(out_channel, in_channel)`; an absent table means all-true.
The kernels in the sources only ever query `is_connected`, so the table
is modelled by that query function. -/
structure connection_table where
  is_connected : Nat → Nat → Bool

/- ------------------------------------------------------------------ -/
/- Parameter and gradient merging (src/tiny_dnn/parameter.h)           -/
/- ------------------------------------------------------------------ -/

/-- One step of `vectorize::reduce<float_t>(&grad_.host_at(sample,0), sz,
&dst->host_at(0))` from `parameter::merge_grads`: element-wise `dst += src`
over the first `sz = dst.length` positions. -/
def vectorize.reduce (src dst : List ℚ) : List ℚ :=
  dst.zipWith (· + ·) src

/-- Embedding of `parameter::merge_grads` (src/tiny_dnn/parameter.h,
lines 76-90).  The gradient tensor is its list of batch rows.  The C++
code first reshapes `dst` to the length of row 0 and overwrites it with
row 0 (`std::copy`), so the previous contents of `dst` are irrelevant and
the function is modelled as returning the merged buffer: row 0 followed
by an element-wise `+=` of every further row. -/
def parameter.merge_grads (grad : List (List ℚ)) : List ℚ :=
  match grad with
  | [] => []
  | grad_head :: rows => rows.foldl (fun dst r => vectorize.reduce r dst) grad_head

theorem vectorize.reduce_length (src dst : List ℚ) (h : src.length = dst.length) :
    (vectorize.reduce src dst).length = dst.length := by
  simp [vectorize.reduce, h]

theorem vectorize.reduce_getD (src dst : List ℚ) (h : src.length = dst.length)
    (i : Nat) (hi : i < dst.length) :
    (vectorize.reduce src dst).getD i 0 = dst.getD i 0 + src.getD i 0 := by
  unfold vectorize.reduce
  rw [List.getD_eq_getElem?_getD]
  rw [List.getElem?_zipWith]
  rw [List.getElem?_eq_getElem hi, List.getElem?_eq_getElem (by omega : i < src.length)]
  simp [List.getD_eq_getElem?_getD, List.getElem?_eq_getElem, hi,
    (by omega : i < src.length)]

/-- Helper: after folding `reduce` over rows of equal length, entry `i`
is the initial entry plus the sum of the rows' entries `i`. -/
theorem merge_fold_getD (rows : List (List ℚ)) (init : List ℚ) (sz : Nat)
    (hinit : init.length = sz) (hrows : ∀ r ∈ rows, r.length = sz) :
    (rows.foldl (fun dst r => vectorize.reduce r dst) init).length = sz ∧
    ∀ i < sz,
      (rows.foldl (fun dst r => vectorize.reduce r dst) init).getD i 0 =
        init.getD i 0 + (rows.map (fun r => r.getD i 0)).sum := by
  induction rows generalizing init with
  | nil => simpa using hinit
  | cons r rows ih =>
    have hr : r.length = sz := hrows r (by simp)
    have hlen : (vectorize.reduce r init).length = sz := by
      rw [vectorize.reduce_length r init (by omega)]; omega
    obtain ⟨hl, hv⟩ := ih (vectorize.reduce r init) hlen
      (fun r h => hrows r (by simp [h]))
    refine ⟨by simpa using hl, fun i hi => ?_⟩
    rw [List.foldl_cons, hv i hi,
      vectorize.reduce_getD r init (by omega) i (by omega)]
    simp [add_assoc]

/-- C1: for a gradient tensor whose rows all have length `sz` (the shape
`[batch_slots, size()]` invariant), `merge_grads` yields a flat buffer of
length `sz` whose entry `i` is the sum over all batch rows of entry `i`;
the previous contents of the destination buffer play no role. -/
theorem parameter.merge_grads_sums_rows (grad : List (List ℚ)) (sz : Nat)
    (hne : grad ≠ []) (hsz : ∀ r ∈ grad, r.length = sz) :
    (parameter.merge_grads grad).length = sz ∧
    ∀ i < sz,
      (parameter.merge_grads grad).getD i 0 =
        (grad.map (fun r => r.getD i 0)).sum := by
  match grad, hne with
  | grad_head :: rows, _ =>
    unfold parameter.merge_grads
    have h0 : grad_head.length = sz := hsz grad_head (by simp)
    obtain ⟨hl, hv⟩ := merge_fold_getD rows grad_head sz h0
      (fun r h => hsz r (by simp [h]))
    exact ⟨hl, fun i hi => by rw [hv i hi]; simp⟩

/-- Witness for C1: the reference scenario of the spec and of
`TEST(parameter, merge_grads)` — bias parameter of size 2, per-sample
gradient rows `[1,2]`, `[2,1]`, `[-4,5]`; the merged buffer is `[-1, 8]`. -/
theorem parameter.merge_grads_witness :
    ([[(1 : ℚ), 2], [2, 1], [-4, 5]] ≠ ([] : List (List ℚ))) ∧
    (∀ r ∈ [[(1 : ℚ), 2], [2, 1], [-4, 5]], r.length = 2) ∧
    ((parameter.merge_grads [[(1 : ℚ), 2], [2, 1], [-4, 5]]).length = 2 ∧
      ∀ i < 2,
        (parameter.merge_grads [[(1 : ℚ), 2], [2, 1], [-4, 5]]).getD i 0 =
          ([[(1 : ℚ), 2], [2, 1], [-4, 5]].map (fun r => r.getD i 0)).sum) ∧
    parameter.merge_grads [[(1 : ℚ), 2], [2, 1], [-4, 5]] = [-1, 8] := by
  refine ⟨by simp, by simp, ?_, by norm_num [parameter.merge_grads, vectorize.reduce]⟩
  exact parameter.merge_grads_sums_rows [[(1 : ℚ), 2], [2, 1], [-4, 5]] 2
    (by simp) (by simp)

/- ------------------------------------------------------------------ -/
/- Deconvolutional layer geometry                                      -/
/- (src/tiny_dnn/layers/deconvolutional_layer.h)                       -/
/- ------------------------------------------------------------------ -/

/-- Padding mode of a spatial layer. -/
inductive padding where
  | valid : padding
  | same : padding
deriving DecidableEq, Repr

/-- Embedding of `deconvolutional_layer::deconv_out_length`
(src/tiny_dnn/layers/deconvolutional_layer.h, lines 413-417):
`ceil(in_length*stride + window_size - 1)` over exact arithmetic. -/
def deconv_out_length (in_length window_size stride : Nat) : Nat :=
  in_length * stride + window_size - 1

/-- Embedding of `deconvolutional_layer::deconv_out_unpadded_length`
(src/tiny_dnn/layers/deconvolutional_layer.h, lines 419-426). -/
def deconv_out_unpadded_length (in_length window_size stride : Nat)
    (pad_type : padding) : Nat :=
  if pad_type = padding.same then in_length * stride
  else in_length * stride + window_size - 1

/-- Parameter block of the deconvolutional layer, the fields of
`core::deconv_params` that `deconv_set_params` fills. -/
structure deconv_params where
  in_ : shape3d
  out : shape3d
  out_unpadded : shape3d
  weight : shape3d
  has_bias : Bool
  pad_type : padding
  w_stride : Nat
  h_stride : Nat
  tbl : connection_table

/-- Embedding of `deconvolutional_layer::deconv_set_params`
(src/tiny_dnn/layers/deconvolutional_layer.h, lines 380-403). -/
def deconv_set_params (in_ : shape3d) (w_width w_height outc : Nat)
    (ptype : padding) (has_bias : Bool) (w_stride h_stride : Nat)
    (tbl : connection_table) : deconv_params :=
  { in_ := in_
    out := ⟨deconv_out_length in_.width_ w_width w_stride,
            deconv_out_length in_.height_ w_height h_stride, outc⟩
    out_unpadded := ⟨deconv_out_unpadded_length in_.width_ w_width w_stride ptype,
                     deconv_out_unpadded_length in_.height_ w_height h_stride ptype,
                     outc⟩
    weight := ⟨w_width, w_height, in_.depth_ * outc⟩
    has_bias := has_bias
    pad_type := ptype
    w_stride := w_stride
    h_stride := h_stride
    tbl := tbl }

/-- Embedding of `deconvolutional_layer::out_shape`
(src/tiny_dnn/layers/deconvolutional_layer.h, lines 300-302): the
externally visible output shape is the unpadded one. -/
def deconvolutional_layer.out_shape (p : deconv_params) : List shape3d :=
  [p.out_unpadded]

/-- Counterexample to C3: at input length 2, kernel size 3, stride 2 the
code computes a working output length of `2*2 + 3 - 1 = 6`, not the
claimed `stride*(in-1) + kernel = 2*1 + 3 = 5`. -/
theorem deconv_out_length_stride2_counterexample :
    deconv_out_length 2 3 2 ≠ 2 * (2 - 1) + 3 := by decide

/-- C3 (amended): for positive input length and kernel size, the working
output length per dimension is `in*stride + kernel - 1`, which equals
`stride*(in-1) + kernel + (stride-1)`; it agrees with the claimed
`stride*(in-1) + kernel` exactly when the stride is 1. -/
theorem deconv_out_length_formula (in_length window_size stride : Nat)
    (hin : 1 ≤ in_length) (hw : 1 ≤ window_size) (hs : 1 ≤ stride) :
    deconv_out_length in_length window_size stride =
      stride * (in_length - 1) + window_size + (stride - 1) ∧
    (stride = 1 →
      deconv_out_length in_length window_size stride =
        stride * (in_length - 1) + window_size) := by
  unfold deconv_out_length
  have e1 : stride * in_length = stride * (in_length - 1) + stride := by
    conv_lhs => rw [← Nat.sub_add_cancel hin]
    rw [Nat.mul_add, Nat.mul_one]
  rw [Nat.mul_comm in_length stride, e1]
  constructor
  · omega
  · intro h
    subst h
    rw [Nat.one_mul]
    omega

/-- Witness for C3's amended theorem at input length 2, kernel 3, stride 2:
the working length is 6 = 2*(2-1) + 3 + (2-1). -/
theorem deconv_out_length_formula_witness :
    (1 ≤ 2 ∧ 1 ≤ 3 ∧ 1 ≤ 2) ∧
    (deconv_out_length 2 3 2 = 2 * (2 - 1) + 3 + (2 - 1) ∧
      (2 = 1 → deconv_out_length 2 3 2 = 2 * (2 - 1) + 3)) :=
  ⟨by decide, deconv_out_length_formula 2 3 2 (by decide) (by decide) (by decide)⟩

/-- C7: for every deconvolutional layer with per-dimension input size 2,
kernel size 3, stride 1 and same padding, the externally visible output
shape is 2 x 2 per output channel (depth `outc`), not the working 4 x 4. -/
theorem deconvolutional_layer.same_out_shape (in_depth outc : Nat)
    (has_bias : Bool) (tbl : connection_table) :
    deconvolutional_layer.out_shape
        (deconv_set_params ⟨2, 2, in_depth⟩ 3 3 outc padding.same has_bias 1 1 tbl) =
      [⟨2, 2, outc⟩] ∧
    (deconv_set_params ⟨2, 2, in_depth⟩ 3 3 outc padding.same has_bias 1 1 tbl).out =
      ⟨4, 4, outc⟩ := by
  constructor <;>
    simp [deconvolutional_layer.out_shape, deconv_set_params,
      deconv_out_unpadded_length, deconv_out_length]

/- ------------------------------------------------------------------ -/
/- Plain SGD optimizer (src/tiny_cnn/optimizers/optimizer.h)           -/
/- ------------------------------------------------------------------ -/

/-- State of the plain SGD optimizer `gradient_descent`: a learning rate
`alpha` and a weight-decay coefficient `lambda`, and nothing else. -/
structure gradient_descent where
  alpha : ℚ
  lambda : ℚ
deriving DecidableEq, Repr

/-- Embedding of `gradient_descent::update`
(src/tiny_cnn/optimizers/optimizer.h, lines 304-315): the loop over
`i < W.size()` assigning `W[i] = W[i] - alpha * (dW[i] + lambda * W[i])`
in place, modelled as a fold of in-place `List.set` writes.  The
optimizer state is returned unchanged, as the C++ member function touches
no member data. -/
def gradient_descent.update (o : gradient_descent) (dW W : List ℚ) :
    gradient_descent × List ℚ :=
  (o, (List.range W.length).foldl
    (fun w i => w.set i (w.getD i 0 - o.alpha * (dW.getD i 0 + o.lambda * w.getD i 0)))
    W)

theorem sgd_loop_length (o : gradient_descent) (dW W : List ℚ) (n : Nat) :
    ((List.range n).foldl
      (fun w i => w.set i (w.getD i 0 - o.alpha * (dW.getD i 0 + o.lambda * w.getD i 0)))
      W).length = W.length := by
  induction n with
  | zero => simp
  | succ n ih =>
    rw [List.range_succ, List.foldl_append]
    simp only [List.foldl_cons, List.foldl_nil, List.length_set]
    exact ih

theorem sgd_loop_getD (o : gradient_descent) (dW W : List ℚ) (n : Nat)
    (hn : n ≤ W.length) (i : Nat) :
    ((List.range n).foldl
      (fun w i => w.set i (w.getD i 0 - o.alpha * (dW.getD i 0 + o.lambda * w.getD i 0)))
      W).getD i 0 =
    if i < n then W.getD i 0 - o.alpha * (dW.getD i 0 + o.lambda * W.getD i 0)
    else W.getD i 0 := by
  induction n with
  | zero => simp
  | succ n ih =>
    rw [List.range_succ, List.foldl_append]
    simp only [List.foldl_cons, List.foldl_nil]
    rcases Nat.lt_trichotomy i n with hlt | heq | hgt
    · rw [List.getD_eq_getElem?_getD, List.getElem?_set_ne (by omega),
        ← List.getD_eq_getElem?_getD, ih (by omega)]
      rw [if_pos hlt, if_pos (by omega : i < n + 1)]
    · subst heq
      have hlen : i < ((List.range i).foldl
          (fun w j => w.set j (w.getD j 0 - o.alpha * (dW.getD j 0 + o.lambda * w.getD j 0)))
          W).length := by rw [sgd_loop_length]; omega
      rw [List.getD_eq_getElem?_getD, List.getElem?_set_self hlen]
      have hcur := ih (by omega)
      rw [if_neg (lt_irrefl i)] at hcur
      simp only [Option.getD_some, hcur]
      rw [if_pos (by omega : i < i + 1)]
    · rw [List.getD_eq_getElem?_getD, List.getElem?_set_ne (by omega),
        ← List.getD_eq_getElem?_getD, ih (by omega)]
      rw [if_neg (by omega : ¬ i < n), if_neg (by omega : ¬ i < n + 1)]

/-- C8: one `update` call of the plain SGD optimizer maps the weight
buffer to the buffer of the same length whose entry `i` is
`W[i] - alpha * (dW[i] + lambda * W[i])`, and leaves the optimizer state
(its only data: `alpha` and `lambda`) unchanged. -/
theorem gradient_descent.update_formula (o : gradient_descent) (dW W : List ℚ)
    (_hlen : dW.length = W.length) :
    (o.update dW W).1 = o ∧
    (o.update dW W).2.length = W.length ∧
    ∀ i < W.length,
      (o.update dW W).2.getD i 0 =
        W.getD i 0 - o.alpha * (dW.getD i 0 + o.lambda * W.getD i 0) := by
  refine ⟨rfl, sgd_loop_length o dW W W.length, fun i hi => ?_⟩
  show ((List.range W.length).foldl _ W).getD i 0 = _
  rw [sgd_loop_getD o dW W W.length (le_refl _) i]
  simp [hi]

/-- Witness for C8: alpha = 2, lambda = 3, W = [1, 2], dW = [4, 5]; the
update yields [1 - 2*(4 + 3*1), 2 - 2*(5 + 3*2)] = [-13, -20]. -/
theorem gradient_descent.update_witness :
    ([(4 : ℚ), 5].length = [(1 : ℚ), 2].length) ∧
    ((gradient_descent.mk 2 3).update [4, 5] [1, 2]).1 = gradient_descent.mk 2 3 ∧
    ((gradient_descent.mk 2 3).update [4, 5] [1, 2]).2.length = [(1 : ℚ), 2].length ∧
    (∀ i < [(1 : ℚ), 2].length,
      ((gradient_descent.mk 2 3).update [4, 5] [1, 2]).2.getD i 0 =
        [(1 : ℚ), 2].getD i 0 -
          2 * ([(4 : ℚ), 5].getD i 0 + 3 * [(1 : ℚ), 2].getD i 0)) :=
  ⟨by decide, gradient_descent.update_formula (gradient_descent.mk 2 3) [4, 5] [1, 2]
    (by decide)⟩

/- ------------------------------------------------------------------ -/
/- LRN layer backward pass (src/tiny_dnn/layers/lrn_layer.h)           -/
/- ------------------------------------------------------------------ -/

/-- Embedding of `lrn_layer::back_propagation`
(src/tiny_dnn/layers/lrn_layer.h, lines 99-108): the body discards
all four tensor arguments and unconditionally throws
`nn_error("not implemented")`. -/
def lrn_layer.back_propagation (in_data out_data out_grad in_grad : List (List ℚ)) :
    Except nn_error Unit :=
  let _ := in_data
  let _ := out_data
  let _ := out_grad
  let _ := in_grad
  Except.error ⟨"not implemented"⟩

/-- Counterexample to C9: on a well-formed 1-sample, 1-element gradient
set the LRN backward pass does not return successfully — it throws. -/
theorem lrn_back_propagation_counterexample :
    (lrn_layer.back_propagation [[1]] [[1]] [[1]] [[0]]).isOk = false := by
  rfl

/-- C9 (amended): for every set of input data, output data, output
gradient and input gradient tensors, `lrn_layer::back_propagation`
computes nothing and throws `nn_error("not implemented")`. -/
theorem lrn_back_propagation_always_throws
    (in_data out_data out_grad in_grad : List (List ℚ)) :
    lrn_layer.back_propagation in_data out_data out_grad in_grad =
      Except.error ⟨"not implemented"⟩ := rfl

/- ------------------------------------------------------------------ -/
/- NNPACK backend precondition checks (src/tiny_cnn/core/backend_nnp.h)-/
/- ------------------------------------------------------------------ -/

/-- Convolution parameter fields consulted by the NNPACK backend checks
(`core::conv_params` and `core::deconv_params` agree on these fields). -/
structure nnp_params where
  has_bias : Bool
  w_stride : Nat
  h_stride : Nat

/-- Embedding of `nnp_backend::conv2d` (forward,
src/tiny_cnn/core/backend_nnp.h, lines 53-77).  The precondition checks
come first; only when they pass does the kernel run.  The value the
NNPACK kernel would compute is abstracted by `kernel_result`, and the
`CNN_USE_NNPACK` compile flag by `nnpack_compiled` (without it the body
throws instead of computing). -/
def nnp_backend.conv2d {α : Type} (p : nnp_params) (nnpack_compiled : Bool)
    (kernel_result : α) : Except nn_error α :=
  if p.has_bias = false then
    Except.error ⟨"NNPACK Convolution requires a bias term."⟩
  else if p.w_stride ≠ 1 ∨ p.h_stride ≠ 1 then
    Except.error ⟨"NNPACK Convolution requires stride 1."⟩
  else if nnpack_compiled then Except.ok kernel_result
  else Except.error ⟨"Tiny-cnn has not been compiled with NNPACK support."⟩

/-- Embedding of `nnp_backend::conv2d` (backward,
src/tiny_cnn/core/backend_nnp.h, lines 79-85): it ignores every argument
and throws. -/
def nnp_backend.conv2d_back {α : Type} (p : nnp_params) (grads : α) :
    Except nn_error Unit :=
  let _ := p
  let _ := grads
  Except.error ⟨"NNPACK does not support back propagation."⟩

/-- Embedding of `nnp_backend::deconv2d` (forward,
src/tiny_cnn/core/backend_nnp.h, lines 87-111): identical checks against
the deconvolution parameter block. -/
def nnp_backend.deconv2d {α : Type} (p : nnp_params) (nnpack_compiled : Bool)
    (kernel_result : α) : Except nn_error α :=
  if p.has_bias = false then
    Except.error ⟨"NNPACK Convolution requires a bias term."⟩
  else if p.w_stride ≠ 1 ∨ p.h_stride ≠ 1 then
    Except.error ⟨"NNPACK Convolution requires stride 1."⟩
  else if nnpack_compiled then Except.ok kernel_result
  else Except.error ⟨"Tiny-cnn has not been compiled with NNPACK support."⟩

/-- Embedding of `nnp_backend::deconv2d` (backward,
src/tiny_cnn/core/backend_nnp.h, lines 113-119). -/
def nnp_backend.deconv2d_back {α : Type} (p : nnp_params) (grads : α) :
    Except nn_error Unit :=
  let _ := p
  let _ := grads
  Except.error ⟨"NNPACK does not support back propagation."⟩

/-- C6: on the NNPACK backend, a forward conv2d or deconv2d call with a
missing bias or a non-unit stride never reaches the kernel — it throws
(no silent fallback: the result is an error, not a value computed some
other way) — and every backward conv2d/deconv2d call throws the typed
"not supported" error unconditionally. -/
theorem nnp_backend.enforces_preconditions {α : Type}
    (pc pd : nnp_params) (compiled : Bool) (kc kd : α) (g : α)
    (hc : pc.has_bias = false ∨ pc.w_stride ≠ 1 ∨ pc.h_stride ≠ 1)
    (hd : pd.has_bias = false ∨ pd.w_stride ≠ 1 ∨ pd.h_stride ≠ 1) :
    (nnp_backend.conv2d pc compiled kc).isOk = false ∧
    (nnp_backend.deconv2d pd compiled kd).isOk = false ∧
    nnp_backend.conv2d_back pc g =
      Except.error ⟨"NNPACK does not support back propagation."⟩ ∧
    nnp_backend.deconv2d_back pd g =
      Except.error ⟨"NNPACK does not support back propagation."⟩ := by
  refine ⟨?_, ?_, rfl, rfl⟩
  · unfold nnp_backend.conv2d
    by_cases hb : pc.has_bias = false
    · rw [if_pos hb]; rfl
    · rcases hc with h | h
      · exact absurd h hb
      · rw [if_neg hb, if_pos h]; rfl
  · unfold nnp_backend.deconv2d
    by_cases hb : pd.has_bias = false
    · rw [if_pos hb]; rfl
    · rcases hd with h | h
      · exact absurd h hb
      · rw [if_neg hb, if_pos h]; rfl

/-- Witness for C6: a no-bias convolution parameter block and a biased
stride-2 deconvolution block, with NNPACK compiled in, both fail. -/
theorem nnp_backend.enforces_preconditions_witness :
    ((nnp_params.mk false 1 1).has_bias = false ∨
      (nnp_params.mk false 1 1).w_stride ≠ 1 ∨ (nnp_params.mk false 1 1).h_stride ≠ 1) ∧
    ((nnp_params.mk true 2 1).has_bias = false ∨
      (nnp_params.mk true 2 1).w_stride ≠ 1 ∨ (nnp_params.mk true 2 1).h_stride ≠ 1) ∧
    ((nnp_backend.conv2d (nnp_params.mk false 1 1) true (37 : ℚ)).isOk = false ∧
      (nnp_backend.deconv2d (nnp_params.mk true 2 1) true (37 : ℚ)).isOk = false ∧
      nnp_backend.conv2d_back (nnp_params.mk false 1 1) (37 : ℚ) =
        Except.error ⟨"NNPACK does not support back propagation."⟩ ∧
      nnp_backend.deconv2d_back (nnp_params.mk true 2 1) (37 : ℚ) =
        Except.error ⟨"NNPACK does not support back propagation."⟩) := by
  refine ⟨Or.inl rfl, Or.inr (Or.inl (by decide)), ?_⟩
  exact nnp_backend.enforces_preconditions (nnp_params.mk false 1 1)
    (nnp_params.mk true 2 1) true (37 : ℚ) (37 : ℚ) (37 : ℚ)
    (Or.inl rfl) (Or.inr (Or.inl (by decide)))

/- ------------------------------------------------------------------ -/
/- Layer setup (src/tiny_dnn/layers/layer.h, lines 715-751)            -/
/- ------------------------------------------------------------------ -/

/-- State of one trainable parameter as far as `layer::setup` observes
it: whether it has been through its initializer, and its data buffer. -/
structure parameter_state where
  inited : Bool
  data : List ℚ

/-- An allocated output edge: `std::make_shared<edge>(this, out_shape()[i],
out_type_[i])` retains the shape (the owning pointer and vector type play
no role in C5). -/
structure edge_state where
  shape : shape3d

/-- State of a layer as consulted by `layer::setup`: declared shapes, the
edge counts fixed at construction (`in_channels_`, `out_channels_`), the
output edge slots `next_`, and the owned parameters.  `init_values i` is
the buffer produced for parameter `i` by its configured initializer;
modelled from the spec: the initializer policies (constant, xavier, ...)
live outside the provided sources and only fill the buffer and mark the
parameter as having been through them. -/
structure layer_state where
  in_shape : List shape3d
  out_shape : List shape3d
  in_channels : Nat
  out_channels : Nat
  next_ : List (Option edge_state)
  parameters_ : List parameter_state
  init_values : Nat → List ℚ

/-- Embedding of `layer::init_parameters`
(src/tiny_dnn/layers/layer.h, lines 762-784): every parameter is filled
by its initializer and marked. -/
def layer.init_parameters (l : layer_state) : layer_state :=
  { l with parameters_ :=
      l.parameters_.mapIdx (fun i _ => ⟨true, l.init_values i⟩) }

/-- Embedding of `layer::setup` (src/tiny_dnn/layers/layer.h, lines
715-751): throw on a shape/edge-count mismatch; otherwise allocate each
still-missing output edge, then run the initializers if some parameter
has not seen them yet, or if `reset_weight` is set. -/
def layer.setup (l : layer_state) (reset_weight : Bool) : Except nn_error layer_state :=
  if l.in_shape.length ≠ l.in_channels ∨ l.out_shape.length ≠ l.out_channels then
    Except.error ⟨"Connection mismatch at setup layer"⟩
  else
    let l1 : layer_state :=
      { l with next_ := (List.range l.out_channels).map (fun i =>
          match l.next_.getD i none with
          | some e => some e
          | none => some ⟨l.out_shape.getD i ⟨0, 0, 0⟩⟩) }
    if l1.parameters_.any (fun p => !p.inited) then
      Except.ok (layer.init_parameters l1)
    else if reset_weight then
      Except.ok (layer.init_parameters l1)
    else
      Except.ok l1

/-- C5: `setup` throws the configuration error exactly when the declared
shape list lengths disagree with the edge counts; when they agree it
returns successfully, and every output edge slot of the returned layer is
allocated. -/
theorem layer.setup_ok_iff (l : layer_state) (reset_weight : Bool)
    (_hnext : l.next_.length = l.out_channels) :
    ((layer.setup l reset_weight).isOk = true ↔
      (l.in_shape.length = l.in_channels ∧ l.out_shape.length = l.out_channels)) ∧
    ∀ l', layer.setup l reset_weight = Except.ok l' → ∀ e ∈ l'.next_, e.isSome := by
  by_cases hm : l.in_shape.length ≠ l.in_channels ∨ l.out_shape.length ≠ l.out_channels
  · constructor
    · rw [layer.setup, if_pos hm]
      constructor
      · intro h; exact absurd h (by exact Bool.noConfusion)
      · intro h; exact absurd hm (by push_neg; exact ⟨h.1, h.2⟩)
    · intro l' h
      rw [layer.setup, if_pos hm] at h
      exact absurd h (by simp)
  · push_neg at hm
    have hedge : ∀ l', layer.setup l reset_weight = Except.ok l' →
        ∀ e ∈ l'.next_, e.isSome := by
      intro l' h e he
      rw [layer.setup, if_neg (by push_neg; exact hm)] at h
      dsimp only at h
      have hnext' : l'.next_ = (List.range l.out_channels).map (fun i =>
          match l.next_.getD i none with
          | some e => some e
          | none => some ⟨l.out_shape.getD i ⟨0, 0, 0⟩⟩) := by
        by_cases h1 : (l.parameters_.any fun p => !p.inited) = true
        · rw [if_pos h1] at h
          injection h with h2
          subst h2
          rfl
        · rw [if_neg h1] at h
          by_cases h2 : reset_weight = true
          · rw [if_pos h2] at h
            injection h with h3
            subst h3
            rfl
          · rw [if_neg h2] at h
            injection h with h3
            subst h3
            rfl
      rw [hnext'] at he
      obtain ⟨i, _, hi⟩ := List.mem_map.mp he
      revert hi
      split <;> intro hi <;> simp [← hi]
    refine ⟨?_, hedge⟩
    rw [layer.setup, if_neg (by push_neg; exact hm)]
    dsimp only
    refine ⟨fun _ => hm, fun _ => ?_⟩
    by_cases h1 : (l.parameters_.any fun p => !p.inited) = true
    · rw [if_pos h1]; rfl
    · rw [if_neg h1]
      by_cases h2 : reset_weight = true
      · rw [if_pos h2]; rfl
      · rw [if_neg h2]; rfl

/-- Witness for C5: a one-input, one-output layer with matching declared
shapes and an unallocated output edge slot sets up successfully. -/
theorem layer.setup_ok_iff_witness :
    ((layer_state.mk [⟨1, 1, 1⟩] [⟨2, 2, 1⟩] 1 1 [none] [] (fun _ => [])).next_.length =
      (layer_state.mk [⟨1, 1, 1⟩] [⟨2, 2, 1⟩] 1 1 [none] [] (fun _ => [])).out_channels) ∧
    ((layer.setup (layer_state.mk [⟨1, 1, 1⟩] [⟨2, 2, 1⟩] 1 1 [none] [] (fun _ => []))
        false).isOk = true ↔
      ((layer_state.mk [⟨1, 1, 1⟩] [⟨2, 2, 1⟩] 1 1 [none] [] (fun _ => [])).in_shape.length = 1 ∧
        (layer_state.mk [⟨1, 1, 1⟩] [⟨2, 2, 1⟩] 1 1 [none] [] (fun _ => [])).out_shape.length = 1)) ∧
    (∀ l', layer.setup (layer_state.mk [⟨1, 1, 1⟩] [⟨2, 2, 1⟩] 1 1 [none] [] (fun _ => []))
        false = Except.ok l' → ∀ e ∈ l'.next_, e.isSome) := by
  refine ⟨rfl, ?_⟩
  exact layer.setup_ok_iff (layer_state.mk [⟨1, 1, 1⟩] [⟨2, 2, 1⟩] 1 1 [none] []
    (fun _ => [])) false rfl

/- ------------------------------------------------------------------ -/
/- Fully-connected backward op                                         -/
/- (src/tiny_dnn/core/kernels/fully_connected_grad_op.h)               -/
/- ------------------------------------------------------------------ -/

/-- Backend engine tag (`core::backend_t`). -/
inductive backend_t where
  | internal : backend_t
  | nnpack : backend_t
  | libdnn : backend_t
  | avx : backend_t
  | opencl : backend_t
deriving DecidableEq, Repr

/-- One layer parameter as the fully-connected gradient op sees it:
a data buffer and a per-sample gradient buffer. -/
structure fc_parameter where
  data : List ℚ
  grad : List (List ℚ)

/-- Slice of `core::OpKernelContext` consulted by
`FullyConnectedGradOp::compute`: the layer parameter list, the `has_bias_`
flag of the fully-connected params, the engine tag, and the in/out
data and gradient tensors. -/
structure fc_context where
  has_bias_ : Bool
  engine : backend_t
  parameters : List fc_parameter
  input0 : List (List ℚ)
  input_grad0 : List (List ℚ)
  output_grad0 : List (List ℚ)

/-- Embedding of `OpKernelContext::ith_parameter`: parameter-list
indexing.  Modelled from the spec: an out-of-range index is a contract
violation, never silent truncation, so the access is partial (`none`
marks the violation). -/
def OpKernelContext.ith_parameter (ctx : fc_context) (i : Nat) : Option fc_parameter :=
  ctx.parameters[i]?

/-- Buffers produced by a fully-connected backward kernel: the updated
weight gradients, bias gradients, and previous-layer delta. -/
structure fc_kernel_output where
  weights_grads : List (List ℚ)
  bias_grads : List (List ℚ)
  prev_delta : List (List ℚ)

/-- Signature of `kernels::fully_connected_op_internal` /
`kernels::fully_connected_op_avx` (backward overloads), taking
`prev_out, weights, weights_grads, bias_grads, curr_delta, prev_delta`.
Those kernel bodies live outside the provided sources, so the op below is
parametric in them. -/
def fc_kernel_fn : Type :=
  List (List ℚ) → List ℚ → List (List ℚ) → List (List ℚ) →
    List (List ℚ) → List (List ℚ) → fc_kernel_output

/-- Embedding of `FullyConnectedGradOp::compute`
(src/tiny_dnn/core/kernels/fully_connected_grad_op.h, lines 22-61).
The result is `none` on a parameter-indexing contract violation,
`some (error ...)` when the op throws, and `some (ok ...)` on success.
The bias reads near the top are guarded by `has_bias_` exactly as in the
source; the two `set_grad` calls at the end are not guarded. -/
def FullyConnectedGradOp.compute (kernel_internal kernel_avx : fc_kernel_fn)
    (ctx : fc_context) : Option (Except nn_error fc_context) := do
  let p0 ← OpKernelContext.ith_parameter ctx 0
  let weights := p0.data
  let _bias ← if ctx.has_bias_ then
      (OpKernelContext.ith_parameter ctx 1).map (fun p => p.data)
    else some []
  let weights_grads := p0.grad
  let bias_grads ← if ctx.has_bias_ then
      (OpKernelContext.ith_parameter ctx 1).map (fun p => p.grad)
    else some []
  let prev_delta := ctx.input_grad0.map (fun row => row.map (fun _ => (0 : ℚ)))
  match ctx.engine with
  | backend_t.internal => do
    let r := kernel_internal ctx.input0 weights weights_grads bias_grads
      ctx.output_grad0 prev_delta
    let q0 ← OpKernelContext.ith_parameter ctx 0
    let q1 ← OpKernelContext.ith_parameter ctx 1
    some (Except.ok { ctx with
      parameters := (ctx.parameters.set 0 { q0 with grad := r.weights_grads }).set 1
        { q1 with grad := r.bias_grads },
      input_grad0 := r.prev_delta })
  | backend_t.avx => do
    let r := kernel_avx ctx.input0 weights weights_grads bias_grads
      ctx.output_grad0 prev_delta
    let q0 ← OpKernelContext.ith_parameter ctx 0
    let q1 ← OpKernelContext.ith_parameter ctx 1
    some (Except.ok { ctx with
      parameters := (ctx.parameters.set 0 { q0 with grad := r.weights_grads }).set 1
        { q1 with grad := r.bias_grads },
      input_grad0 := r.prev_delta })
  | _ => some (Except.error ⟨"Not supported engine"⟩)

/-- C10: the unguarded `ith_parameter(1)` at the end of
`FullyConnectedGradOp::compute` makes two owned parameters an unstated
precondition of the backward fully-connected op — on a bias-free layer
owning only the weight parameter the run ends in the out-of-range
parameter access (first conjunct), while with a second parameter present
the same run completes (second conjunct). -/
theorem FullyConnectedGradOp.compute_bias_slot_out_of_range
    (kernel_internal kernel_avx : fc_kernel_fn) (ctx : fc_context)
    (hb : ctx.has_bias_ = false) (hp : ctx.parameters.length = 1)
    (he : ctx.engine = backend_t.internal) :
    FullyConnectedGradOp.compute kernel_internal kernel_avx ctx = none ∧
    ∀ ctx2 : fc_context, ctx2.has_bias_ = false →
      ctx2.engine = backend_t.internal → 2 ≤ ctx2.parameters.length →
      (FullyConnectedGradOp.compute kernel_internal kernel_avx ctx2).isSome := by
  constructor
  · obtain ⟨p, hp1⟩ := List.length_eq_one.mp hp
    simp [FullyConnectedGradOp.compute, OpKernelContext.ith_parameter, hb, he, hp1]
  · intro ctx2 hb2 he2 hp2
    have h0 : ctx2.parameters[0]? = some ctx2.parameters[0] :=
      List.getElem?_eq_getElem (by omega)
    have h1 : ctx2.parameters[1]? = some ctx2.parameters[1] :=
      List.getElem?_eq_getElem (by omega)
    simp [FullyConnectedGradOp.compute, OpKernelContext.ith_parameter, hb2, he2,
      h0, h1]

/-- Witness for C10: a concrete bias-free context owning one parameter
fails, and the same context with a second parameter succeeds. -/
theorem FullyConnectedGradOp.compute_bias_slot_witness :
    ((fc_context.mk false backend_t.internal [⟨[1], [[2]]⟩] [[3]] [[0]] [[4]]).has_bias_
        = false) ∧
    ((fc_context.mk false backend_t.internal [⟨[1], [[2]]⟩] [[3]] [[0]] [[4]]).parameters.length
        = 1) ∧
    ((fc_context.mk false backend_t.internal [⟨[1], [[2]]⟩] [[3]] [[0]] [[4]]).engine
        = backend_t.internal) ∧
    (FullyConnectedGradOp.compute (fun _ _ w b _ p => ⟨w, b, p⟩) (fun _ _ w b _ p => ⟨w, b, p⟩)
        (fc_context.mk false backend_t.internal [⟨[1], [[2]]⟩] [[3]] [[0]] [[4]]) = none ∧
      ∀ ctx2 : fc_context, ctx2.has_bias_ = false →
        ctx2.engine = backend_t.internal → 2 ≤ ctx2.parameters.length →
        (FullyConnectedGradOp.compute (fun _ _ w b _ p => ⟨w, b, p⟩)
          (fun _ _ w b _ p => ⟨w, b, p⟩) ctx2).isSome) := by
  refine ⟨rfl, rfl, rfl, ?_⟩
  exact FullyConnectedGradOp.compute_bias_slot_out_of_range
    (fun _ _ w b _ p => ⟨w, b, p⟩) (fun _ _ w b _ p => ⟨w, b, p⟩)
    (fc_context.mk false backend_t.internal [⟨[1], [[2]]⟩] [[3]] [[0]] [[4]])
    rfl rfl rfl

/- ------------------------------------------------------------------ -/
/- Graph traversal (src/tiny_dnn/layers/layer.h, lines 1081-1120)      -/
/- ------------------------------------------------------------------ -/

/-- Worker loop of `graph_traverse` over a graph on `Fin n`: `adj curr`
is the concatenated neighbor list `prev_nodes ++ next_nodes` of `curr`.
Exactly as in the source, the popped node is inserted into `visited` only
when it is popped, the node callback fires on every pop (the returned
list is the sequence of callback invocations, in order), and a neighbor
is pushed whenever it is not yet in `visited` at push time.  Termination
holds for every graph: each pop either grows `visited` or removes one of
the finitely many queued already-visited entries without adding any. -/
def graph_traverse_aux (n : Nat) (adj : Fin n → List (Fin n)) :
    Finset (Fin n) → List (Fin n) → List (Fin n)
  | _, [] => []
  | visited, curr :: rest =>
    let visited' := insert curr visited
    let pushes := (adj curr).filter (fun l => l ∉ visited')
    curr :: graph_traverse_aux n adj visited' (rest ++ pushes)
termination_by visited queue =>
  (n - visited.card, (queue.filter (fun v => v ∈ visited)).length)
decreasing_by
  by_cases hc : curr ∈ visited
  · apply Prod.Lex.right'
    · simp [Finset.insert_eq_self.2 hc]
    · have hp : ((adj curr).filter (fun l => l ∉ insert curr visited)).filter
          (fun v => v ∈ insert curr visited) = [] := by
        rw [List.filter_eq_nil_iff]
        intro a ha
        have := List.of_mem_filter ha
        simpa using this
      simp [Finset.insert_eq_self.2 hc, List.filter_append, hp, List.filter_cons, hc]
  · apply Prod.Lex.left
    have h1 : visited.card < (insert curr visited).card := by
      rw [Finset.card_insert_of_not_mem hc]; omega
    have h2 : (insert curr visited).card ≤ n := by
      simpa using Finset.card_le_univ (insert curr visited)
    omega

/-- Embedding of `graph_traverse` (src/tiny_dnn/layers/layer.h, lines
1081-1120): start from an empty visited set and a queue holding the root. -/
def graph_traverse (n : Nat) (adj : Fin n → List (Fin n)) (root : Fin n) :
    List (Fin n) :=
  graph_traverse_aux n adj ∅ [root]

/-- Every queued node is eventually popped, i.e. receives the callback. -/
theorem graph_traverse_aux_mem (n : Nat) (adj : Fin n → List (Fin n))
    (visited : Finset (Fin n)) (queue : List (Fin n)) :
    ∀ v ∈ queue, v ∈ graph_traverse_aux n adj visited queue := by
  induction visited, queue using graph_traverse_aux.induct n adj with
  | case1 x => simp
  | case2 visited curr rest visited' pushes ih =>
    intro v hv
    rw [graph_traverse_aux]
    rcases List.mem_cons.1 hv with h | h
    · simp [h]
    · exact List.mem_cons_of_mem _ (ih v (List.mem_append_left _ h))

/-- Every neighbor of a popped node was either already visited when the
traversal started, or is itself popped at some point. -/
theorem graph_traverse_aux_closed (n : Nat) (adj : Fin n → List (Fin n))
    (visited : Finset (Fin n)) (queue : List (Fin n)) :
    ∀ u ∈ graph_traverse_aux n adj visited queue, ∀ v ∈ adj u,
      v ∈ visited ∨ v ∈ graph_traverse_aux n adj visited queue := by
  induction visited, queue using graph_traverse_aux.induct n adj with
  | case1 x =>
    intro u hu
    rw [graph_traverse_aux] at hu
    simp at hu
  | case2 visited curr rest visited' pushes ih =>
    intro u hu v hv
    rw [graph_traverse_aux] at hu ⊢
    rcases List.mem_cons.1 hu with rfl | hu'
    · by_cases hvv : v ∈ insert u visited
      · rcases Finset.mem_insert.1 hvv with rfl | hvis
        · exact Or.inr (List.mem_cons_self _ _)
        · exact Or.inl hvis
      · refine Or.inr (List.mem_cons_of_mem _ ?_)
        apply graph_traverse_aux_mem
        refine List.mem_append_right _ ?_
        refine List.mem_filter.2 ⟨hv, ?_⟩
        exact decide_eq_true hvv
    · rcases ih u hu' v hv with hvis | hres
      · rcases Finset.mem_insert.1 hvis with rfl | h2
        · exact Or.inr (List.mem_cons_self _ _)
        · exact Or.inl h2
      · exact Or.inr (List.mem_cons_of_mem _ hres)

/-- Neighbor lists of the diamond layer graph root - two middle layers -
one join layer, with edges listed in both directions as
`graph_traverse` follows both predecessors and successors. -/
def diamondAdj : Fin 4 → List (Fin 4)
  | 0 => [1, 2]
  | 1 => [0, 3]
  | 2 => [0, 3]
  | 3 => [1, 2]

/-- Counterexample to C4: on the diamond graph the join layer 3 is
enqueued twice before its first pop, so the node callback runs on it
twice — the callback sequence is `[0, 1, 2, 3, 3]`, not once per layer. -/
theorem graph_traverse_diamond_counterexample :
    (graph_traverse 4 diamondAdj 0).count 3 = 2 := by
  have h : graph_traverse 4 diamondAdj 0 = [0, 1, 2, 3, 3] := by
    simp [graph_traverse, graph_traverse_aux, diamondAdj]
  rw [h]
  decide

/-- C4 (amended): `graph_traverse` terminates on every layer graph,
diamonds included (the model is a total function), and invokes the node
callback at least once on every layer reachable from the root; in
non-tree topologies a layer that is enqueued more than once before its
first pop receives the callback once per pop rather than at most once. -/
theorem graph_traverse_visits_reachable (n : Nat) (adj : Fin n → List (Fin n))
    (root v : Fin n)
    (h : Relation.ReflTransGen (fun a b => b ∈ adj a) root v) :
    v ∈ graph_traverse n adj root := by
  induction h with
  | refl => exact graph_traverse_aux_mem n adj ∅ [root] root (by simp)
  | tail _ hbc ih =>
    rcases graph_traverse_aux_closed n adj ∅ [root] _ ih _ hbc with hvis | hmem
    · simp at hvis
    · exact hmem

/-- Witness for C4's amended theorem: in the diamond graph the join
layer 3 is reachable from the root 0 and appears in the callback
sequence. -/
theorem graph_traverse_visits_reachable_witness :
    Relation.ReflTransGen (fun a b => b ∈ diamondAdj a) 0 3 ∧
    (3 : Fin 4) ∈ graph_traverse 4 diamondAdj 0 := by
  have hr : Relation.ReflTransGen (fun a b => b ∈ diamondAdj a) 0 3 :=
    Relation.ReflTransGen.tail
      (Relation.ReflTransGen.tail Relation.ReflTransGen.refl
        (show (1 : Fin 4) ∈ diamondAdj 0 by decide))
      (show (3 : Fin 4) ∈ diamondAdj 1 by decide)
  exact ⟨hr, graph_traverse_visits_reachable 4 diamondAdj 0 3 hr⟩

/- ------------------------------------------------------------------ -/
/- Convolution forward kernel                                          -/
/- (src/tiny_dnn/core/kernels/conv2d_op_custom.h, lines 10-62)         -/
/- ------------------------------------------------------------------ -/

/-- Pointwise store into a flat buffer modelled as a total function:
the Lean counterpart of a raw-pointer write `buf[i] = v`. -/
def upd (f : Nat → ℚ) (i : Nat) (v : ℚ) : Nat → ℚ :=
  fun j => if j = i then v else f j

/-- Fields of `core::conv_params` consulted by `conv2d_op_custom`:
`in_depth` stands for `params.in.depth_` (the only field of `params.in`
the forward kernel reads). -/
structure conv_params where
  in_depth : Nat
  in_padded : shape3d
  out : shape3d
  weight : shape3d
  w_stride : Nat
  h_stride : Nat
  has_bias : Bool
  tbl : connection_table

/-- Inner accumulation of `conv2d_op_custom` (the `sum` variable): with
`pw = W + weight.get_index(0,0,in_depth*o + inc)` walked linearly over
the window and `ppi = in + in_padded.get_index(0,0,inc) +
in_padded.width*(y*h_stride) + x*w_stride`, it adds
`*ppw++ * ppi[wy*in_padded.width + wx]` over the window. -/
def conv2d_window_sum (p : conv_params) (W inb : Nat → ℚ) (o inc y x : Nat) : ℚ :=
  ∑ wy ∈ Finset.range p.weight.height_, ∑ wx ∈ Finset.range p.weight.width_,
    W (p.weight.get_index 0 0 (p.in_depth * o + inc) + (wy * p.weight.width_ + wx)) *
      inb (p.in_padded.get_index 0 0 inc + p.in_padded.width_ * (y * p.h_stride) +
        x * p.w_stride + (wy * p.in_padded.width_ + wx))

/-- Body of one connected `(o, inc)` pair in `conv2d_op_custom`: for every
output position `(y, x)` the accumulator entry
`pa[y*out.width + x]` (with `pa = a + out.get_index(0,0,o)`) receives
`+= sum`. -/
def conv2d_pass (p : conv_params) (W inb : Nat → ℚ) (o inc : Nat) (a : Nat → ℚ) :
    Nat → ℚ :=
  (List.range p.out.height_).foldl (fun a y =>
    (List.range p.out.width_).foldl (fun a x =>
      upd a (p.out.get_index 0 0 o + (y * p.out.width_ + x))
        (a (p.out.get_index 0 0 o + (y * p.out.width_ + x)) +
          conv2d_window_sum p W inb o inc y x)) a) a

/-- Bias step of `conv2d_op_custom`: when `has_bias`, add `bias[o]` to
every entry of output channel `o`. -/
def conv2d_add_bias (p : conv_params) (bias : Nat → ℚ) (o : Nat) (a : Nat → ℚ) :
    Nat → ℚ :=
  if p.has_bias then
    (List.range (p.out.width_ * p.out.height_)).foldl (fun a j =>
      upd a (p.out.get_index 0 0 o + j) (a (p.out.get_index 0 0 o + j) + bias o)) a
  else a

/-- One iteration of the outer `o` loop of `conv2d_op_custom`: every
input channel `inc` contributes through `conv2d_pass` exactly when
`tbl.is_connected(o, inc)` (the `continue` in the source), then the bias
step runs. -/
def conv2d_channel (p : conv_params) (W bias inb : Nat → ℚ) (o : Nat) (a : Nat → ℚ) :
    Nat → ℚ :=
  conv2d_add_bias p bias o
    ((List.range p.in_depth).foldl (fun a inc =>
      if p.tbl.is_connected o inc then conv2d_pass p W inb o inc a else a) a)

/-- Per-sample body of the forward `conv2d_op_custom`: the loop over
output channels, starting from the accumulator contents `a0` of
`out_data[sample]` (the kernel accumulates with `+=`). -/
def conv2d_op_custom_sample (p : conv_params) (W bias inb a0 : Nat → ℚ) : Nat → ℚ :=
  (List.range p.out.depth_).foldl (fun a o => conv2d_channel p W bias inb o a) a0

/-- Embedding of the forward `conv2d_op_custom`
(src/tiny_dnn/core/kernels/conv2d_op_custom.h, lines 10-62): `for_i` maps
the per-sample body over the batch; each sample writes its own output
buffer, so the parallel and sequential runs agree and the map is the
faithful meaning. -/
def conv2d_op_custom (p : conv_params) (W bias : Nat → ℚ)
    (in_data out_data : List (Nat → ℚ)) : List (Nat → ℚ) :=
  (in_data.zip out_data).map (fun s => conv2d_op_custom_sample p W bias s.1 s.2)

/-- Fold helper: a fold whose every step leaves position `j` unchanged
leaves position `j` unchanged. -/
theorem foldl_fn_invar {β : Type} (l : List β) (f : (Nat → ℚ) → β → (Nat → ℚ))
    (j : Nat) (h : ∀ a x, x ∈ l → f a x j = a j) :
    ∀ a, (l.foldl f a) j = a j := by
  induction l with
  | nil => intro a; rfl
  | cons x xs ih =>
    intro a
    rw [List.foldl_cons, ih (fun a y hy => h a y (List.mem_cons_of_mem _ hy)),
      h a x (List.mem_cons_self _ _)]

/-- Fold helper: a binary relation preserved by parallel steps is
preserved by parallel folds. -/
theorem foldl_rel {β : Type} (R : (Nat → ℚ) → (Nat → ℚ) → Prop) (l : List β)
    (f g : (Nat → ℚ) → β → (Nat → ℚ))
    (h : ∀ a b x, x ∈ l → R a b → R (f a x) (g b x)) :
    ∀ a b, R a b → R (l.foldl f a) (l.foldl g b) := by
  induction l with
  | nil => intro a b hab; exact hab
  | cons x xs ih =>
    intro a b hab
    exact ih (fun a b y hy => h a b y (List.mem_cons_of_mem _ hy)) _ _
      (h a b x (List.mem_cons_self _ _) hab)

theorem upd_ne (f : Nat → ℚ) (i : Nat) (v : ℚ) (j : Nat) (h : j ≠ i) :
    upd f i v j = f j := if_neg h

/-- Spatial offsets `y*width + x` with `y < height`, `x < width` stay
inside one channel plane. -/
theorem offset_lt (y x oh ow : Nat) (hy : y < oh) (hx : x < ow) :
    y * ow + x < ow * oh := by
  calc y * ow + x < y * ow + ow := by omega
    _ = (y + 1) * ow := by ring
    _ ≤ oh * ow := Nat.mul_le_mul_right _ (by omega)
    _ = ow * oh := Nat.mul_comm _ _

/-- Write locality: a `(o, inc)` pass only writes inside output channel
`o`'s plane. -/
theorem conv2d_pass_outside (p : conv_params) (W inb : Nat → ℚ) (o inc : Nat)
    (a : Nat → ℚ) (j : Nat)
    (hj : ∀ k < p.out.width_ * p.out.height_, j ≠ p.out.get_index 0 0 o + k) :
    conv2d_pass p W inb o inc a j = a j := by
  unfold conv2d_pass
  apply foldl_fn_invar
  intro a y hy
  apply foldl_fn_invar
  intro a x hx
  apply upd_ne
  exact hj _ (offset_lt y x p.out.height_ p.out.width_
    (List.mem_range.1 hy) (List.mem_range.1 hx))

/-- Write locality: the bias step only writes inside output channel `o`'s
plane. -/
theorem conv2d_add_bias_outside (p : conv_params) (bias : Nat → ℚ) (o : Nat)
    (a : Nat → ℚ) (j : Nat)
    (hj : ∀ k < p.out.width_ * p.out.height_, j ≠ p.out.get_index 0 0 o + k) :
    conv2d_add_bias p bias o a j = a j := by
  unfold conv2d_add_bias
  split
  · apply foldl_fn_invar
    intro a k hk
    exact upd_ne _ _ _ _ (hj _ (List.mem_range.1 hk))
  · rfl

/-- Write locality: the whole channel-`o` iteration only writes inside
output channel `o`'s plane. -/
theorem conv2d_channel_outside (p : conv_params) (W bias inb : Nat → ℚ) (o : Nat)
    (a : Nat → ℚ) (j : Nat)
    (hj : ∀ k < p.out.width_ * p.out.height_, j ≠ p.out.get_index 0 0 o + k) :
    conv2d_channel p W bias inb o a j = a j := by
  unfold conv2d_channel
  rw [conv2d_add_bias_outside p bias o _ j hj]
  apply foldl_fn_invar
  intro a inc hinc
  split
  · exact conv2d_pass_outside p W inb o inc a j hj
  · rfl

/-- Read locality: the window sum for pair `(o, inc)` reads the input
only inside input channel `inc`'s plane, granted the geometric fit of
kernel, stride and padded input. -/
theorem conv2d_window_sum_congr (p : conv_params) (W in1 in2 : Nat → ℚ)
    (o inc y x : Nat)
    (hgw : (p.out.width_ - 1) * p.w_stride + p.weight.width_ ≤ p.in_padded.width_)
    (hgh : (p.out.height_ - 1) * p.h_stride + p.weight.height_ ≤ p.in_padded.height_)
    (hy : y < p.out.height_) (hx : x < p.out.width_)
    (hin : ∀ k < p.in_padded.width_ * p.in_padded.height_,
      in1 (p.in_padded.get_index 0 0 inc + k) = in2 (p.in_padded.get_index 0 0 inc + k)) :
    conv2d_window_sum p W in1 o inc y x = conv2d_window_sum p W in2 o inc y x := by
  unfold conv2d_window_sum
  apply Finset.sum_congr rfl
  intro wy hwy
  apply Finset.sum_congr rfl
  intro wx hwx
  rw [Finset.mem_range] at hwy hwx
  congr 1
  have hrow : y * p.h_stride + wy < p.in_padded.height_ := by
    have h1 : y * p.h_stride ≤ (p.out.height_ - 1) * p.h_stride :=
      Nat.mul_le_mul_right _ (by omega)
    omega
  have hcol : x * p.w_stride + wx < p.in_padded.width_ := by
    have h1 : x * p.w_stride ≤ (p.out.width_ - 1) * p.w_stride :=
      Nat.mul_le_mul_right _ (by omega)
    omega
  have hoff : (y * p.h_stride + wy) * p.in_padded.width_ + (x * p.w_stride + wx) <
      p.in_padded.width_ * p.in_padded.height_ := by
    calc (y * p.h_stride + wy) * p.in_padded.width_ + (x * p.w_stride + wx)
        < (y * p.h_stride + wy) * p.in_padded.width_ + p.in_padded.width_ := by omega
      _ = (y * p.h_stride + wy + 1) * p.in_padded.width_ := by ring
      _ ≤ p.in_padded.height_ * p.in_padded.width_ := Nat.mul_le_mul_right _ (by omega)
      _ = p.in_padded.width_ * p.in_padded.height_ := Nat.mul_comm _ _
  have heq : p.in_padded.get_index 0 0 inc + p.in_padded.width_ * (y * p.h_stride) +
      x * p.w_stride + (wy * p.in_padded.width_ + wx) =
      p.in_padded.get_index 0 0 inc +
        ((y * p.h_stride + wy) * p.in_padded.width_ + (x * p.w_stride + wx)) := by
    unfold shape3d.get_index
    ring
  rw [heq]
  exact hin _ hoff

/-- A `(o, inc)` pass run on two inputs agreeing on channel `inc`
preserves agreement of the accumulators on output channel `o`. -/
theorem conv2d_pass_congr (p : conv_params) (W in1 in2 : Nat → ℚ) (o inc : Nat)
    (hgw : (p.out.width_ - 1) * p.w_stride + p.weight.width_ ≤ p.in_padded.width_)
    (hgh : (p.out.height_ - 1) * p.h_stride + p.weight.height_ ≤ p.in_padded.height_)
    (hin : ∀ k < p.in_padded.width_ * p.in_padded.height_,
      in1 (p.in_padded.get_index 0 0 inc + k) = in2 (p.in_padded.get_index 0 0 inc + k))
    (a b : Nat → ℚ)
    (hab : ∀ k < p.out.width_ * p.out.height_,
      a (p.out.get_index 0 0 o + k) = b (p.out.get_index 0 0 o + k)) :
    ∀ k < p.out.width_ * p.out.height_,
      conv2d_pass p W in1 o inc a (p.out.get_index 0 0 o + k) =
        conv2d_pass p W in2 o inc b (p.out.get_index 0 0 o + k) := by
  unfold conv2d_pass
  refine foldl_rel (fun a b => ∀ k < p.out.width_ * p.out.height_,
      a (p.out.get_index 0 0 o + k) = b (p.out.get_index 0 0 o + k))
    (List.range p.out.height_) _ _ ?_ a b hab
  intro a b y hy hab2
  refine foldl_rel (fun a b => ∀ k < p.out.width_ * p.out.height_,
      a (p.out.get_index 0 0 o + k) = b (p.out.get_index 0 0 o + k))
    (List.range p.out.width_) _ _ ?_ a b hab2
  intro a b x hx hab3 k hk
  rw [List.mem_range] at hy hx
  unfold upd
  have hlt : y * p.out.width_ + x < p.out.width_ * p.out.height_ :=
    offset_lt y x p.out.height_ p.out.width_ hy hx
  by_cases hik : p.out.get_index 0 0 o + k =
      p.out.get_index 0 0 o + (y * p.out.width_ + x)
  · rw [if_pos hik, if_pos hik,
      hab3 (y * p.out.width_ + x) hlt,
      conv2d_window_sum_congr p W in1 in2 o inc y x hgw hgh hy hx hin]
  · rw [if_neg hik, if_neg hik]
    exact hab3 k hk

/-- The bias step preserves agreement of the accumulators on output
channel `o`. -/
theorem conv2d_add_bias_congr (p : conv_params) (bias : Nat → ℚ) (o : Nat)
    (a b : Nat → ℚ)
    (hab : ∀ k < p.out.width_ * p.out.height_,
      a (p.out.get_index 0 0 o + k) = b (p.out.get_index 0 0 o + k)) :
    ∀ k < p.out.width_ * p.out.height_,
      conv2d_add_bias p bias o a (p.out.get_index 0 0 o + k) =
        conv2d_add_bias p bias o b (p.out.get_index 0 0 o + k) := by
  unfold conv2d_add_bias
  split
  · refine foldl_rel (fun a b => ∀ k < p.out.width_ * p.out.height_,
        a (p.out.get_index 0 0 o + k) = b (p.out.get_index 0 0 o + k))
      (List.range (p.out.width_ * p.out.height_)) _ _ ?_ a b hab
    intro a b j hj hab2 k hk
    unfold upd
    by_cases hik : p.out.get_index 0 0 o + k = p.out.get_index 0 0 o + j
    · rw [if_pos hik, if_pos hik, hab2 j (List.mem_range.1 hj)]
    · rw [if_neg hik, if_neg hik]
      exact hab2 k hk
  · exact hab

/-- The channel-`o` iteration run on two inputs agreeing on every channel
connected to `o` preserves agreement of the accumulators on output
channel `o`: the disconnected channels are skipped by the gate. -/
theorem conv2d_channel_congr (p : conv_params) (W bias in1 in2 : Nat → ℚ) (o : Nat)
    (hgw : (p.out.width_ - 1) * p.w_stride + p.weight.width_ ≤ p.in_padded.width_)
    (hgh : (p.out.height_ - 1) * p.h_stride + p.weight.height_ ≤ p.in_padded.height_)
    (hin : ∀ inc < p.in_depth, p.tbl.is_connected o inc = true →
      ∀ k < p.in_padded.width_ * p.in_padded.height_,
        in1 (p.in_padded.get_index 0 0 inc + k) = in2 (p.in_padded.get_index 0 0 inc + k))
    (a b : Nat → ℚ)
    (hab : ∀ k < p.out.width_ * p.out.height_,
      a (p.out.get_index 0 0 o + k) = b (p.out.get_index 0 0 o + k)) :
    ∀ k < p.out.width_ * p.out.height_,
      conv2d_channel p W bias in1 o a (p.out.get_index 0 0 o + k) =
        conv2d_channel p W bias in2 o b (p.out.get_index 0 0 o + k) := by
  unfold conv2d_channel
  apply conv2d_add_bias_congr
  refine foldl_rel (fun a b => ∀ k < p.out.width_ * p.out.height_,
      a (p.out.get_index 0 0 o + k) = b (p.out.get_index 0 0 o + k))
    (List.range p.in_depth) _ _ ?_ a b hab
  intro a b inc hinc hab2
  by_cases hc : p.tbl.is_connected o inc = true
  · rw [if_pos hc, if_pos hc]
    exact conv2d_pass_congr p W in1 in2 o inc hgw hgh
      (hin inc (List.mem_range.1 hinc) hc) a b hab2
  · rw [if_neg hc, if_neg hc]
    exact hab2

/-- Planes of two distinct channels in a flat buffer are disjoint. -/
theorem region_disjoint (o o0 k m A : Nat) (hne : o ≠ o0) (hk : k < A) (hm : m < A) :
    o0 * A + k ≠ o * A + m := by
  rcases Nat.lt_or_ge o0 o with h | h
  · have h1 : (o0 + 1) * A ≤ o * A := Nat.mul_le_mul_right _ (by omega)
    have h2 : (o0 + 1) * A = o0 * A + A := by ring
    omega
  · have ho : o < o0 := by omega
    have h1 : (o + 1) * A ≤ o0 * A := Nat.mul_le_mul_right _ (by omega)
    have h2 : (o + 1) * A = o * A + A := by ring
    omega

/-- Per-sample gating: the values the forward kernel leaves in output
channel `o0` depend only on the input channels connected to `o0`. -/
theorem conv2d_op_custom_sample_gating (p : conv_params) (W bias : Nat → ℚ)
    (o0 : Nat)
    (hgw : (p.out.width_ - 1) * p.w_stride + p.weight.width_ ≤ p.in_padded.width_)
    (hgh : (p.out.height_ - 1) * p.h_stride + p.weight.height_ ≤ p.in_padded.height_)
    (in1 in2 a1 a2 : Nat → ℚ)
    (hin : ∀ inc < p.in_depth, p.tbl.is_connected o0 inc = true →
      ∀ k < p.in_padded.width_ * p.in_padded.height_,
        in1 (p.in_padded.get_index 0 0 inc + k) = in2 (p.in_padded.get_index 0 0 inc + k))
    (ha : ∀ k < p.out.width_ * p.out.height_,
      a1 (p.out.get_index 0 0 o0 + k) = a2 (p.out.get_index 0 0 o0 + k)) :
    ∀ k < p.out.width_ * p.out.height_,
      conv2d_op_custom_sample p W bias in1 a1 (p.out.get_index 0 0 o0 + k) =
        conv2d_op_custom_sample p W bias in2 a2 (p.out.get_index 0 0 o0 + k) := by
  unfold conv2d_op_custom_sample
  refine foldl_rel (fun a b => ∀ k < p.out.width_ * p.out.height_,
      a (p.out.get_index 0 0 o0 + k) = b (p.out.get_index 0 0 o0 + k))
    (List.range p.out.depth_) _ _ ?_ a1 a2 ha
  intro a b o ho hab
  by_cases hoo : o = o0
  · subst hoo
    exact conv2d_channel_congr p W bias in1 in2 o hgw hgh hin a b hab
  · intro k hk
    have hj1 : ∀ m < p.out.width_ * p.out.height_,
        p.out.get_index 0 0 o0 + k ≠ p.out.get_index 0 0 o + m := by
      intro m hm
      unfold shape3d.get_index
      simp only [Nat.zero_mul, Nat.add_zero, Nat.mul_zero]
      have h3 := region_disjoint o o0 k m (p.out.width_ * p.out.height_)
        (fun h => hoo h) hk hm
      omega
    rw [conv2d_channel_outside p W bias in1 o a _ hj1,
      conv2d_channel_outside p W bias in2 o b _ hj1]
    exact hab k hk

/-- Indexing the kernel result: sample `s` of the batch is the per-sample
body applied to input sample `s` and accumulator sample `s`. -/
theorem conv2d_op_custom_getD (p : conv_params) (W bias : Nat → ℚ)
    (ins as : List (Nat → ℚ)) (s : Nat) (hs : s < ins.length)
    (hlen : as.length = ins.length) :
    (conv2d_op_custom p W bias ins as).getD s (fun _ => 0) =
      conv2d_op_custom_sample p W bias (ins.getD s (fun _ => 0))
        (as.getD s (fun _ => 0)) := by
  unfold conv2d_op_custom
  have hs2 : s < as.length := by omega
  have hz : (ins.zip as)[s]? = some (ins[s], as[s]) :=
    List.getElem?_zip_eq_some.mpr
      ⟨List.getElem?_eq_getElem hs, List.getElem?_eq_getElem hs2⟩
  rw [List.getD_eq_getElem?_getD, List.getElem?_map, hz]
  rw [List.getD_eq_getElem?_getD, List.getElem?_eq_getElem hs]
  rw [List.getD_eq_getElem?_getD, List.getElem?_eq_getElem hs2]
  rfl

/-- C2: the forward convolution kernel accumulates into output channel
`o0` only over input channels `inc` with `is_connected(o0, inc)` — for
every batch, weight vector and bias, two input batches that agree on
every channel connected to `o0` (and may differ arbitrarily on the
disconnected ones) leave identical values in output channel `o0` of
every sample; hence a channel marked disconnected from `o0` contributes
exactly zero there, regardless of the weight values. -/
theorem conv2d_op_custom_connection_gating (p : conv_params) (W bias : Nat → ℚ)
    (o0 : Nat)
    (hgw : (p.out.width_ - 1) * p.w_stride + p.weight.width_ ≤ p.in_padded.width_)
    (hgh : (p.out.height_ - 1) * p.h_stride + p.weight.height_ ≤ p.in_padded.height_)
    (in1s in2s a1s a2s : List (Nat → ℚ))
    (hl1 : in2s.length = in1s.length) (hl2 : a1s.length = in1s.length)
    (hl3 : a2s.length = in1s.length)
    (hin : ∀ s < in1s.length, ∀ inc < p.in_depth,
      p.tbl.is_connected o0 inc = true →
      ∀ k < p.in_padded.width_ * p.in_padded.height_,
        (in1s.getD s (fun _ => 0)) (p.in_padded.get_index 0 0 inc + k) =
          (in2s.getD s (fun _ => 0)) (p.in_padded.get_index 0 0 inc + k))
    (ha : ∀ s < in1s.length, ∀ k < p.out.width_ * p.out.height_,
      (a1s.getD s (fun _ => 0)) (p.out.get_index 0 0 o0 + k) =
        (a2s.getD s (fun _ => 0)) (p.out.get_index 0 0 o0 + k)) :
    ∀ s < in1s.length, ∀ k < p.out.width_ * p.out.height_,
      ((conv2d_op_custom p W bias in1s a1s).getD s (fun _ => 0))
          (p.out.get_index 0 0 o0 + k) =
        ((conv2d_op_custom p W bias in2s a2s).getD s (fun _ => 0))
          (p.out.get_index 0 0 o0 + k) := by
  intro s hs k hk
  rw [conv2d_op_custom_getD p W bias in1s a1s s hs hl2,
    conv2d_op_custom_getD p W bias in2s a2s s (by omega) (by omega)]
  exact conv2d_op_custom_sample_gating p W bias o0 hgw hgh _ _ _ _
    (hin s hs) (ha s hs) k hk

/-- Parameter block for the C2 witness: 1 x 1 planes, two input channels,
one output channel, 1 x 1 kernel, unit strides, no bias, and a table
disconnecting the pair `(outc = 0, inc = 1)`. -/
def conv_gating_params : conv_params :=
  ⟨2, ⟨1, 1, 2⟩, ⟨1, 1, 1⟩, ⟨1, 1, 2⟩, 1, 1, false,
    ⟨fun o inc => !(o == 0 && inc == 1)⟩⟩

/-- First input batch for the C2 witness: channel 0 holds 3, channel 1
holds 7. -/
def conv_gating_in1 : List (Nat → ℚ) := [fun j => if j = 1 then 7 else 3]

/-- Second input batch for the C2 witness: channel 0 holds 3, channel 1
holds 100 — it differs from the first exactly on the disconnected
channel 1. -/
def conv_gating_in2 : List (Nat → ℚ) := [fun j => if j = 1 then 100 else 3]

/-- Zero accumulator batch for the C2 witness. -/
def conv_gating_acc : List (Nat → ℚ) := [fun _ => 0]

/-- Witness for C2: with `(outc = 0, inc = 1)` disconnected, two inputs
differing only in channel 1 (shown by the explicit disagreement
conjunct) produce identical values in output channel 0. -/
theorem conv2d_op_custom_connection_gating_witness :
    ((conv_gating_params.out.width_ - 1) * conv_gating_params.w_stride +
        conv_gating_params.weight.width_ ≤ conv_gating_params.in_padded.width_) ∧
    ((conv_gating_params.out.height_ - 1) * conv_gating_params.h_stride +
        conv_gating_params.weight.height_ ≤ conv_gating_params.in_padded.height_) ∧
    conv_gating_in2.length = conv_gating_in1.length ∧
    conv_gating_acc.length = conv_gating_in1.length ∧
    conv_gating_params.tbl.is_connected 0 1 = false ∧
    (∃ k < conv_gating_params.in_padded.width_ * conv_gating_params.in_padded.height_,
      (conv_gating_in1.getD 0 (fun _ => 0))
          (conv_gating_params.in_padded.get_index 0 0 1 + k) ≠
        (conv_gating_in2.getD 0 (fun _ => 0))
          (conv_gating_params.in_padded.get_index 0 0 1 + k)) ∧
    ∀ s < conv_gating_in1.length,
      ∀ k < conv_gating_params.out.width_ * conv_gating_params.out.height_,
      ((conv2d_op_custom conv_gating_params (fun _ => 5) (fun _ => 9)
          conv_gating_in1 conv_gating_acc).getD s (fun _ => 0))
          (conv_gating_params.out.get_index 0 0 0 + k) =
        ((conv2d_op_custom conv_gating_params (fun _ => 5) (fun _ => 9)
          conv_gating_in2 conv_gating_acc).getD s (fun _ => 0))
          (conv_gating_params.out.get_index 0 0 0 + k) := by
  have hin : ∀ s < conv_gating_in1.length, ∀ inc < conv_gating_params.in_depth,
      conv_gating_params.tbl.is_connected 0 inc = true →
      ∀ k < conv_gating_params.in_padded.width_ * conv_gating_params.in_padded.height_,
        (conv_gating_in1.getD s (fun _ => 0))
            (conv_gating_params.in_padded.get_index 0 0 inc + k) =
          (conv_gating_in2.getD s (fun _ => 0))
            (conv_gating_params.in_padded.get_index 0 0 inc + k) := by
    intro s hs inc hinc hc k hk
    have hs2 : s < 1 := hs
    have hinc2 : inc < 2 := hinc
    have hk2 : k < 1 := hk
    interval_cases inc
    · interval_cases s
      interval_cases k
      norm_num [conv_gating_in1, conv_gating_in2, conv_gating_params, shape3d.get_index]
    · exact absurd hc (by decide)
  have ha : ∀ s < conv_gating_in1.length,
      ∀ k < conv_gating_params.out.width_ * conv_gating_params.out.height_,
      (conv_gating_acc.getD s (fun _ => 0))
          (conv_gating_params.out.get_index 0 0 0 + k) =
        (conv_gating_acc.getD s (fun _ => 0))
          (conv_gating_params.out.get_index 0 0 0 + k) := by
    intro s _ k _
    rfl
  refine ⟨by decide, by decide, rfl, rfl, by decide, ?_, ?_⟩
  · refine ⟨0, by decide, ?_⟩
    norm_num [conv_gating_in1, conv_gating_in2, conv_gating_params, shape3d.get_index]
  · exact conv2d_op_custom_connection_gating conv_gating_params (fun _ => 5)
      (fun _ => 9) 0 (by decide) (by decide) conv_gating_in1 conv_gating_in2
      conv_gating_acc conv_gating_acc rfl rfl rfl hin ha
